import Mathlib

/-!
Verification development for the skull_engine client-side tabular data
engine: filter evaluation, filter application, sorting, pagination and the
polling guard, as implemented by the dashboard modules (search analytics
module, SOC dashboard module, real-time refresh modules).

Modelling conventions for the shallow embedding of the JavaScript source:
- JS runtime values are modelled by the inductive type JSVal; JS numbers
  are modelled as integers (the numeric record fields handled by this code,
  rule levels and event ids, are integer valued), so parseFloat and
  parseInt are modelled by a single integer-numeral parser.
- String.toLowerCase and String.prototype.split are modelled by structural
  functions over the character list of a string, so that every definition
  evaluates inside the kernel.
- JS relational comparison of values is modelled for operands of the same
  primitive type; mixed-type or non-primitive comparisons yield false,
  matching the NaN-style comparisons the source relies on.
- Array.prototype.sort with a comparator c is modelled as a stable
  insertion sort with the precedence relation: a precedes b when
  c(a, b) is not positive, which is the behaviour of the stable sorts
  used by current JS engines for the comparators occurring in the source.
-/

namespace SkullEngine

/-- JS runtime values as far as the dashboard code inspects them: strings,
numbers (modelled as integers), plain objects (association lists of fields),
undefined and null. -/
inductive JSVal where
  | str (s : String)
  | int (n : Int)
  | obj (fields : List (String × JSVal))
  | undef
  | null

/-- Truthiness of a JS value: empty string, zero, undefined and null are
falsy; every other value occurring in the model is truthy. -/
def jsTruthy (v : JSVal) : Bool :=
  match v with
  | JSVal.str s => !(s == "")
  | JSVal.int n => !(n == 0)
  | JSVal.obj _ => true
  | JSVal.undef => false
  | JSVal.null => false

/-- Embedding of the JS idiom v OR d (logical or used for defaulting):
the value itself when truthy, otherwise the default. -/
def jsOrDefault (v d : JSVal) : JSVal :=
  if jsTruthy v then v else d

/-- Embedding of JS ToString on the values of the model. -/
def jsToStr (v : JSVal) : String :=
  match v with
  | JSVal.str s => s
  | JSVal.int n => toString n
  | JSVal.obj _ => "[object Object]"
  | JSVal.undef => "undefined"
  | JSVal.null => "null"

/-- Embedding of String.prototype.toLowerCase, written as a structural map
over the character list so it evaluates in the kernel. -/
def jsToLower (s : String) : String :=
  String.mk (s.data.map Char.toLower)

/-- Helper for jsSplitDot: splits a character list at every dot. -/
def splitDotAux : List Char → List Char → List (List Char)
  | [], cur => [cur.reverse]
  | c :: rest, cur =>
    if c = '.' then cur.reverse :: splitDotAux rest [] else splitDotAux rest (c :: cur)

/-- Embedding of path.split on a dot, as used by getNestedValue. -/
def jsSplitDot (s : String) : List String :=
  (splitDotAux s.data []).map String.mk

/-- Lookup of a field in a JS object modelled as an association list. -/
def lookupKey (fields : List (String × JSVal)) (key : String) : Option JSVal :=
  (fields.find? (fun p => p.1 == key)).map (fun p => p.2)

/-- Embedding of SearchAnalytics.getNestedValue (src/unnamed/part_002):
reduce over the dot-separated path; at each step a non-object current value
or a missing key yields the empty string. -/
def getNestedValue (source : JSVal) (path : String) : JSVal :=
  (jsSplitDot path).foldl
    (fun current key =>
      match current with
      | JSVal.obj fields => (lookupKey fields key).getD (JSVal.str "")
      | _ => JSVal.str "")
    source

/-- Integer-numeral fragment of JS parseFloat / parseInt: an optional sign
followed by a digit sequence; none when no leading digit is present (the
NaN case). Fractional and exponent syntax is outside the model, which
restricts JS numbers to integers. -/
def jsParseNum (s : String) : Option Int :=
  let digitsOf : List Char → Option Int := fun cs =>
    let ds := cs.takeWhile Char.isDigit
    if ds.isEmpty then none
    else some (ds.foldl (fun acc c => 10 * acc + (c.toNat - 48 : Int)) 0)
  match s.data with
  | '-' :: rest => (digitsOf rest).map (fun n => -n)
  | '+' :: rest => digitsOf rest
  | cs => digitsOf cs

/-- Embedding of the JS idiom parseFloat(v) OR 0 applied to a field value:
numbers pass through, strings are parsed with NaN coerced to 0, and every
other value coerces to 0. -/
def jsParseFloatOr0 (v : JSVal) : Int :=
  match v with
  | JSVal.int n => n
  | JSVal.str s => (jsParseNum s).getD 0
  | _ => 0

/-- Substring test: embedding of String.prototype.includes. -/
def jsIncludesB (s sub : String) : Bool :=
  (s.data.tails).any (fun t => sub.data.isPrefixOf t)

/-- Coerced lower-cased string form of a field value, as computed by the
string branch of evaluateFilter: String(fieldValue OR empty).toLowerCase(). -/
def fieldStringForm (v : JSVal) : String :=
  jsToLower (jsToStr (jsOrDefault v (JSVal.str "")))

/-- A filter predicate as built by applyAdvancedFilters: a dot-separated
field path, an operator name and a comparison value. -/
structure Filter where
  field : String
  operator : String
  value : String

/-- A search hit as consumed by the search analytics module: an id, a
timestamp (modelled by its numeric order) and the event source object. -/
structure Hit where
  id : Nat
  timestamp : Int
  data : JSVal

/-- Embedding of SearchAnalytics.evaluateFilter (src/unnamed/part_002,
lines 376-420). The source branches on the field name, not the operator:
only the two hard-coded fields rule.level and data.win.system.eventID are
compared numerically; every other field is compared through its coerced
lower-cased string form; every unmatched switch arm returns true. -/
def evaluateFilter (hit : Hit) (f : Filter) : Bool :=
  let source := jsOrDefault hit.data (JSVal.obj [])
  let rawValue := getNestedValue source f.field
  if f.field = "rule.level" ∨ f.field = "data.win.system.eventID" then
    let fieldValue := jsParseFloatOr0 rawValue
    let filterValue := (jsParseNum f.value).getD 0
    if f.operator = "equals" then fieldValue == filterValue
    else if f.operator = "greater_than" then decide (filterValue < fieldValue)
    else if f.operator = "less_than" then decide (fieldValue < filterValue)
    else true
  else
    let fieldValue := fieldStringForm rawValue
    let filterValue := jsToLower f.value
    if f.operator = "equals" then fieldValue == filterValue
    else if f.operator = "contains" then jsIncludesB fieldValue filterValue
    else if f.operator = "starts_with" then filterValue.data.isPrefixOf fieldValue.data
    else if f.operator = "ends_with" then filterValue.data.isSuffixOf fieldValue.data
    else if f.operator = "exists" then
      !(fieldValue == "") && !(fieldValue == "undefined") && !(fieldValue == "null")
    else if f.operator = "not_exists" then
      (fieldValue == "") || (fieldValue == "undefined") || (fieldValue == "null")
    else true

/-- Embedding of SearchAnalytics.applyFiltersToData (src/unnamed/part_002,
lines 343-374): with no active filters the current data is copied; otherwise
each active filter is applied in turn to the surviving records. -/
def applyFiltersToData (currentData : List Hit) (activeFilters : List Filter) : List Hit :=
  if activeFilters.isEmpty then currentData
  else activeFilters.foldl
    (fun filtered f => filtered.filter (fun hit => evaluateFilter hit f)) currentData

/-- Embedding of the page-count computation used by every dashboard module
(SearchAnalytics.updatePagination in src/unnamed/part_002 line 794,
getTotalAlertsPages in src/static/js/threat-intel.js lines 582-584):
Math.ceil(filteredLength / itemsPerPage), with no further clamping. -/
def getPageCount (filteredLength itemsPerPage : Nat) : Nat :=
  (filteredLength + itemsPerPage - 1) / itemsPerPage

/-- Embedding of Array.prototype.slice with non-negative bounds: the
elements with index in the clamped window from start to stop. -/
def jsSlice (l : List α) (start stop : Nat) : List α :=
  (l.take stop).drop start

/-- Embedding of the page extraction done by SearchAnalytics.renderTable
(src/unnamed/part_002 lines 712-714) and by updateAlertsTable in
src/static/js/app.js lines 308-310: slice the filtered data from
(page - 1) * itemsPerPage to page * itemsPerPage. -/
def getPage (filteredData : List α) (page itemsPerPage : Nat) : List α :=
  jsSlice filteredData ((page - 1) * itemsPerPage) ((page - 1) * itemsPerPage + itemsPerPage)

/-- JS strict less-than on values, modelled for same-primitive-type
operands; comparisons involving undefined, null, objects or mixed types
yield false, as the NaN-style JS comparisons do on the data this code sees. -/
def jsLtB (a b : JSVal) : Bool :=
  match a, b with
  | JSVal.int x, JSVal.int y => decide (x < y)
  | JSVal.str x, JSVal.str y => decide (x < y)
  | _, _ => false

/-- JS strict greater-than on values, under the same modelling conventions
as jsLtB. -/
def jsGtB (a b : JSVal) : Bool :=
  match a, b with
  | JSVal.int x, JSVal.int y => decide (y < x)
  | JSVal.str x, JSVal.str y => decide (y < x)
  | _, _ => false

/-- Embedding of a JS optional-chaining path a?.k1?.k2: each step reads
a field of an object, and anything else yields undefined. -/
def jsOptChain (v : JSVal) (keys : List String) : JSVal :=
  keys.foldl
    (fun current key =>
      match current with
      | JSVal.obj fields => (lookupKey fields key).getD JSVal.undef
      | _ => JSVal.undef)
    v

/-- Sort-key accessor of SearchAnalytics.sortTable (src/unnamed/part_002
lines 864-885): for each recognized column name, the value the comparator
reads off a hit, with falsy values defaulted as in the source; an
unrecognized column leaves both sides undefined. -/
def saSortVal (field : String) (h : Hit) : JSVal :=
  if field = "timestamp" then JSVal.int h.timestamp
  else if field = "severity" then jsOrDefault (jsOptChain h.data ["rule", "level"]) (JSVal.int 0)
  else if field = "agent_name" then jsOrDefault (jsOptChain h.data ["agent", "name"]) (JSVal.str "")
  else if field = "rule_description" then
    jsOrDefault (jsOptChain h.data ["rule", "description"]) (JSVal.str "")
  else if field = "rule_id" then jsOrDefault (jsOptChain h.data ["rule", "id"]) (JSVal.str "")
  else if field = "location" then jsOrDefault (jsOptChain h.data ["location"]) (JSVal.str "")
  else JSVal.undef

/-- Precedence relation of the part_002 sort comparator: ascending returns
1 exactly when the first value is greater, descending exactly when it is
smaller, so a precedes b when the comparator is not positive. This
comparator never returns 0, so on tied or incomparable values ECMAScript
leaves the resulting order implementation-defined; the model resolves such
ties as input-order preserving, and every theorem about sort output below
carries a pairwise-strict-comparability hypothesis so that its statement
does not depend on this choice. -/
def saPrecede (field dir : String) (a b : Hit) : Bool :=
  if dir = "asc" then !(jsGtB (saSortVal field a) (saSortVal field b))
  else !(jsLtB (saSortVal field a) (saSortVal field b))

/-- Stable sort of the filtered data by the part_002 comparator. -/
def saSortData (field dir : String) (l : List Hit) : List Hit :=
  List.insertionSort (fun a b => saPrecede field dir a b = true) l

/-- State of the search analytics engine relevant to sorting and paging
(src/unnamed/part_002): current sort column, sort direction, current page
and the filtered data array. -/
structure SAState where
  sortField : String
  sortDirection : String
  currentPage : Nat
  filteredData : List Hit

/-- Embedding of SearchAnalytics.sortTable (src/unnamed/part_002 lines
854-895): toggle the direction when the same column is clicked, otherwise
adopt the new column with descending direction; then re-sort the filtered
data in place and re-render. The current page is not touched. -/
def saSortTable (field : String) (s : SAState) : SAState :=
  let dir :=
    if s.sortField = field then (if s.sortDirection = "asc" then "desc" else "asc")
    else "desc"
  { sortField := field
    sortDirection := dir
    currentPage := s.currentPage
    filteredData := saSortData field dir s.filteredData }

/-- An alert row of the SOC dashboard (src/static/js/app.js), with the
fields its filter and sort code reads. -/
structure Alert where
  rule_description : String
  agent_name : String
  rule_id : String
  severity : Int
  timestamp : Int
deriving DecidableEq

/-- The filter inputs of the SOC dashboard (src/static/js/app.js):
a search text, a minimum-severity text and an agent name, each empty when
unset. -/
structure AppFilters where
  search : String
  severity : String
  agent : String

/-- Embedding of the predicate inside ProfessionalSOCDashboard.applyFilters
(src/static/js/app.js lines 229-245): search matches any of three fields,
the severity filter parses its text and compares, the agent filter compares
for equality; an empty filter input always matches. -/
def alertMatches (fl : AppFilters) (a : Alert) : Bool :=
  (fl.search == "" || jsIncludesB (jsToLower a.rule_description) fl.search
      || jsIncludesB (jsToLower a.agent_name) fl.search
      || jsIncludesB (jsToLower a.rule_id) fl.search)
    && (fl.severity == "" ||
        match jsParseNum fl.severity with
        | some n => decide (n ≤ a.severity)
        | none => false)
    && (fl.agent == "" || a.agent_name == fl.agent)

/-- Sort-key accessor of ProfessionalSOCDashboard.sortAlerts
(src/static/js/app.js lines 260-271): timestamps by their numeric order,
severity as a number, the remaining recognized keys as strings. -/
def appSortVal (key : String) (a : Alert) : JSVal :=
  if key = "timestamp" then JSVal.int a.timestamp
  else if key = "severity" then JSVal.int a.severity
  else if key = "rule_description" then JSVal.str a.rule_description
  else if key = "agent_name" then JSVal.str a.agent_name
  else if key = "rule_id" then JSVal.str a.rule_id
  else JSVal.undef

/-- Precedence relation of the app.js comparator (which returns 0 on
ties): a precedes b when the comparator is not positive, i.e. ascending
when a is not greater, descending when a is not smaller. -/
def appPrecede (key dir : String) (a b : Alert) : Bool :=
  if dir = "asc" then !(jsGtB (appSortVal key a) (appSortVal key b))
  else !(jsLtB (appSortVal key a) (appSortVal key b))

/-- Embedding of ProfessionalSOCDashboard.sortAlerts (src/static/js/app.js
lines 259-277) as a stable sort by the comparator precedence. -/
def sortAlerts (alerts : List Alert) (key dir : String) : List Alert :=
  List.insertionSort (fun a b => appPrecede key dir a b = true) alerts

/-- State of the SOC dashboard relevant to filtering, sorting and paging
(src/static/js/app.js this.state). -/
structure AppState where
  alerts : List Alert
  currentFilters : AppFilters
  sortKey : String
  sortDirection : String
  filteredAlerts : List Alert
  currentPage : Nat

/-- Embedding of ProfessionalSOCDashboard.applyFilters (src/static/js/app.js
lines 228-254): filter the alerts, sort them by the current sort config,
store the result and reset the current page to 1. -/
def applyFilters (s : AppState) : AppState :=
  let filtered := s.alerts.filter (alertMatches s.currentFilters)
  let sorted := sortAlerts filtered s.sortKey s.sortDirection
  { s with filteredAlerts := sorted, currentPage := 1 }

/-- Embedding of ProfessionalSOCDashboard.sortTable (src/static/js/app.js
lines 282-302): toggle the direction when the key matches the current sort
key, otherwise adopt the new key with descending direction, then re-run
applyFilters (which resets the page). -/
def appSortTable (key : String) (s : AppState) : AppState :=
  let s1 :=
    if s.sortKey = key then
      { s with sortDirection := if s.sortDirection = "asc" then "desc" else "asc" }
    else { s with sortKey := key, sortDirection := "desc" }
  applyFilters s1

/-- State of one polling loop: the isUpdating / isRefreshing guard flag and
the number of fetches currently in flight. -/
structure PollState where
  isUpdating : Bool
  inFlight : Nat
deriving DecidableEq

/-- Embedding of the guarded entry of FIMRealTime.updateFIMData
(src/static/js/fim-realtime.js lines 24-27), RealTimeManager.fetchUpdates
(lines 139-145) and refreshAllData (src/static/js/threat-intel.js lines
111-114): when the guard flag is set the tick returns without starting a
fetch; otherwise the flag is set and a fetch is issued. -/
def tickUpdate (s : PollState) : PollState :=
  if s.isUpdating then s else { isUpdating := true, inFlight := s.inFlight + 1 }

/-- Embedding of the finally block closing those fetches: the in-flight
fetch completes (successfully or not) and the guard flag is cleared. -/
def completeUpdate (s : PollState) : PollState :=
  { isUpdating := false, inFlight := s.inFlight - 1 }

/-- One event of the polling loop: either the recurring timer fires, or an
in-flight fetch completes with outcome ok (success or failure). The guard
check and the flag assignment run atomically because the JS event loop does
not interleave the synchronous prefix of the handler. -/
inductive PollStep : PollState → PollState → Prop where
  | tick (s : PollState) : PollStep s (tickUpdate s)
  | complete (s : PollState) (ok : Bool) (h : 0 < s.inFlight) : PollStep s (completeUpdate s)

/-- Reachability of a polling-loop state from the initial state (flag
clear, nothing in flight) by timer and completion events. -/
def PollReachable (s : PollState) : Prop :=
  Relation.ReflTransGen PollStep ⟨false, 0⟩ s

/-- Sample hit used to instantiate universally quantified theorems. -/
def sampleHit : Hit :=
  ⟨0, 0, JSVal.obj []⟩

/-- Sequentially filtering by each predicate equals one filter by the
conjunction of all predicates. -/
theorem foldl_filter_eq_filter_all (F : List Filter) (data : List Hit) :
    F.foldl (fun filtered f => filtered.filter (fun hit => evaluateFilter hit f)) data
      = data.filter (fun hit => F.all (fun f => evaluateFilter hit f)) := by
  induction F generalizing data with
  | nil => simp
  | cons f F ih =>
    rw [List.foldl_cons, ih, List.filter_filter]
    apply List.filter_congr
    intro a _
    simp [Bool.and_comm]

/-- Closed form of applyFiltersToData: one filter by the conjunction of
the active predicates (the empty-filter branch of the source coincides
with filtering by the empty conjunction). -/
theorem applyFiltersToData_eq_filter (data : List Hit) (F : List Filter) :
    applyFiltersToData data F
      = data.filter (fun hit => F.all (fun f => evaluateFilter hit f)) := by
  unfold applyFiltersToData
  rcases F with _ | ⟨f, F⟩
  · simp
  · rw [if_neg (by simp), foldl_filter_eq_filter_all]

/-- The page count is large enough to cover the filtered length. -/
theorem pageCount_mul_ge (len size : Nat) (hs : 0 < size) :
    len ≤ getPageCount len size * size := by
  cases len with
  | zero => exact Nat.zero_le _
  | succ n =>
    have h1 : getPageCount (n + 1) size = n / size + 1 := by
      unfold getPageCount
      have h2 : n + 1 + size - 1 = n + size := by omega
      rw [h2, Nat.add_div_right _ hs]
    rw [h1]
    calc n + 1 ≤ size * (n / size + 1) := Nat.lt_mul_div_succ n hs
      _ = (n / size + 1) * size := Nat.mul_comm _ _

/-- The page count is the least number of pages covering the filtered
length. -/
theorem pageCount_le (len size m : Nat) (hs : 0 < size) (hm : len ≤ m * size) :
    getPageCount len size ≤ m := by
  cases len with
  | zero =>
    have h0 : getPageCount 0 size = 0 := by
      unfold getPageCount
      exact Nat.div_eq_of_lt (by omega)
    omega
  | succ n =>
    have h1 : getPageCount (n + 1) size = n / size + 1 := by
      unfold getPageCount
      have h2 : n + 1 + size - 1 = n + size := by omega
      rw [h2, Nat.add_div_right _ hs]
    have h3 : n / size < m := (Nat.div_lt_iff_lt_mul hs).mpr (by omega)
    omega

/-- C5: a record survives applyFiltersToData exactly when it is in the
input and satisfies every active predicate (the predicates combine with
logical AND); the filtered set is a subsequence of the input, and with no
active filters the input is returned unchanged. -/
theorem c5_filters_conjunction (data : List Hit) (F : List Filter) (hit : Hit) :
    (hit ∈ applyFiltersToData data F
      ↔ hit ∈ data ∧ ∀ f ∈ F, evaluateFilter hit f = true)
    ∧ List.Sublist (applyFiltersToData data F) data
    ∧ applyFiltersToData data [] = data := by
  rw [applyFiltersToData_eq_filter, applyFiltersToData_eq_filter]
  refine ⟨?_, List.filter_sublist data, by simp⟩
  rw [List.mem_filter, List.all_eq_true]

/-- C3 counterexample: with an empty filtered set and page size 25 the
computed page count is 0, not the claimed minimum of 1. -/
theorem c3_counterexample : getPageCount 0 25 = 0 ∧ ¬ 1 ≤ getPageCount 0 25 := by
  decide

/-- C3 amended: the page count is exactly the ceiling of filteredCount
over pageSize, with no minimum applied: it is the least page total whose
pages cover the filtered records, it is 0 (not 1) for an empty filtered
set, and page 1 of the empty set is the empty list. -/
theorem c3_amended (len size : Nat) (hs : 0 < size) :
    len ≤ getPageCount len size * size
    ∧ (∀ m : Nat, len ≤ m * size → getPageCount len size ≤ m)
    ∧ getPageCount 0 size = 0
    ∧ getPage ([] : List Hit) 1 size = [] := by
  refine ⟨pageCount_mul_ge len size hs, fun m hm => pageCount_le len size m hs hm, ?_, ?_⟩
  · unfold getPageCount
    exact Nat.div_eq_of_lt (by omega)
  · unfold getPage jsSlice
    simp

/-- C3 witness: the amended page-count characterization evaluated at
30 records with page size 25. -/
theorem c3_amended_witness :
    30 ≤ getPageCount 30 25 * 25
    ∧ (∀ m : Nat, 30 ≤ m * 25 → getPageCount 30 25 ≤ m)
    ∧ getPageCount 0 25 = 0
    ∧ getPage ([] : List Hit) 1 25 = [] :=
  c3_amended 30 25 (by decide)

/-- C7: for any page number at least 1, the displayed page is the slice of
the filtered data from (page - 1) * pageSize to page * pageSize; a page
number beyond the page count yields the empty page; and with 30 records
and page size 25, page 1 has 25 records, page 2 the remaining 5, and
page 3 is empty. -/
theorem c7_page_slice (l : List Hit) (size : Nat) (hs : 0 < size) :
    (∀ page : Nat, 1 ≤ page →
      getPage l page size = (l.drop ((page - 1) * size)).take size
      ∧ (getPageCount l.length size < page → getPage l page size = []))
    ∧ (l.length = 30 → size = 25 →
      (getPage l 1 25).length = 25 ∧ (getPage l 2 25).length = 5 ∧ getPage l 3 25 = []) := by
  have hslice : ∀ page : Nat,
      getPage l page size = (l.drop ((page - 1) * size)).take size := by
    intro page
    unfold getPage jsSlice
    rw [List.drop_take]
    congr 1
    omega
  constructor
  · intro page hp
    refine ⟨hslice page, fun hlt => ?_⟩
    have hle : l.length ≤ (page - 1) * size := by
      have h1 : getPageCount l.length size ≤ page - 1 := by omega
      have h2 := pageCount_mul_ge l.length size hs
      have h3 : getPageCount l.length size * size ≤ (page - 1) * size :=
        Nat.mul_le_mul_right size h1
      omega
    rw [hslice page, List.drop_eq_nil_of_le hle]
    simp
  · intro h30 h25
    subst h25
    have e1 : getPage l 1 25 = (l.drop 0).take 25 := hslice 1
    have e2 : getPage l 2 25 = (l.drop 25).take 25 := hslice 2
    have e3 : getPage l 3 25 = (l.drop 50).take 25 := hslice 3
    refine ⟨?_, ?_, ?_⟩
    · rw [e1]
      simp [List.length_take, List.length_drop, h30]
    · rw [e2]
      simp [List.length_take, List.length_drop, h30]
    · rw [e3, List.drop_eq_nil_of_le (by omega)]
      simp

/-- C7 witness: the page-slice theorem evaluated on a concrete list of 30
records with page size 25. -/
theorem c7_page_slice_witness :
    (0 < 25)
    ∧ ((getPage (List.replicate 30 sampleHit) 1 25).length = 25
      ∧ (getPage (List.replicate 30 sampleHit) 2 25).length = 5
      ∧ getPage (List.replicate 30 sampleHit) 3 25 = []) :=
  ⟨by decide,
    (c7_page_slice (List.replicate 30 sampleHit) 25 (by decide)).2 (by simp) rfl⟩

/-- C1 counterexample: a greater_than filter on the field agent.name
(value 3, threshold 5) matches the record even though the numeric
comparison 3 greater-than 5 fails: the source only compares numerically
for the two hard-coded fields and otherwise falls through to a switch arm
that returns true. -/
theorem c1_counterexample :
    evaluateFilter ⟨1, 0, JSVal.obj [("agent", JSVal.obj [("name", JSVal.str "3")])]⟩
      ⟨"agent.name", "greater_than", "5"⟩ = true
    ∧ jsParseFloatOr0
        (getNestedValue (JSVal.obj [("agent", JSVal.obj [("name", JSVal.str "3")])])
          "agent.name") = 3
    ∧ (jsParseNum "5").getD 0 = 5
    ∧ ¬ (3 : Int) > 5 := by
  decide

/-- C1 amended: only for the two hard-coded field paths rule.level and
data.win.system.eventID does a greater_than or less_than filter parse both
sides as numbers (non-numeric and missing values coercing to 0) and match
exactly when the numeric comparison holds; for every other field path
these operators fall through to the default switch arm and match every
record. -/
theorem c1_amended (hit : Hit) (f : Filter)
    (hop : f.operator = "greater_than" ∨ f.operator = "less_than") :
    (f.field = "rule.level" ∨ f.field = "data.win.system.eventID" →
      (evaluateFilter hit f = true ↔
        (if f.operator = "greater_than" then
          (jsParseNum f.value).getD 0
            < jsParseFloatOr0 (getNestedValue (jsOrDefault hit.data (JSVal.obj [])) f.field)
        else
          jsParseFloatOr0 (getNestedValue (jsOrDefault hit.data (JSVal.obj [])) f.field)
            < (jsParseNum f.value).getD 0)))
    ∧ (f.field ≠ "rule.level" → f.field ≠ "data.win.system.eventID" →
        evaluateFilter hit f = true) := by
  constructor
  · intro hf
    unfold evaluateFilter
    rw [if_pos hf]
    rcases hop with h | h <;> simp [h]
  · intro h1 h2
    unfold evaluateFilter
    rw [if_neg (by tauto)]
    rcases hop with h | h <;> simp [h]

/-- C1 witness: the amended numeric semantics evaluated at a record with
rule.level 7 against the threshold 5. -/
theorem c1_amended_witness :
    (("greater_than" : String) = "greater_than" ∨ ("greater_than" : String) = "less_than")
    ∧ evaluateFilter ⟨1, 0, JSVal.obj [("rule", JSVal.obj [("level", JSVal.int 7)])]⟩
        ⟨"rule.level", "greater_than", "5"⟩ = true := by
  refine ⟨Or.inl rfl, ?_⟩
  exact ((c1_amended ⟨1, 0, JSVal.obj [("rule", JSVal.obj [("level", JSVal.int 7)])]⟩
    ⟨"rule.level", "greater_than", "5"⟩ (Or.inl rfl)).1 (Or.inl rfl)).mpr (by decide)

/-- C2 counterexample: a filter with the unrecognized operator regex_match
matches a record (the default switch arm returns true), so an unrecognized
operator matches every record instead of none. -/
theorem c2_counterexample :
    ("regex_match" ∉ (["equals", "contains", "starts_with", "ends_with",
        "greater_than", "less_than", "exists", "not_exists"] : List String))
    ∧ evaluateFilter ⟨1, 0, JSVal.obj [("agent", JSVal.obj [("name", JSVal.str "srv01")])]⟩
        ⟨"agent.name", "regex_match", "x"⟩ = true := by
  decide

/-- C2 amended: filter evaluation is total (the model is a total function,
the source switch always falls through to a default), and a filter whose
operator is not one of the eight recognized operators matches every
record, so the record is included in, not excluded from, the filtered
set. -/
theorem c2_amended (hit : Hit) (f : Filter)
    (hop : f.operator ∉ (["equals", "contains", "starts_with", "ends_with",
      "greater_than", "less_than", "exists", "not_exists"] : List String)) :
    evaluateFilter hit f = true := by
  simp only [List.mem_cons, List.not_mem_nil, or_false, not_or] at hop
  obtain ⟨h1, h2, h3, h4, h5, h6, h7, h8⟩ := hop
  unfold evaluateFilter
  split
  · simp [h1, h5, h6]
  · simp [h1, h2, h3, h4, h7, h8]

/-- C2 witness: the amended statement evaluated at a concrete record and
an unrecognized operator. -/
theorem c2_amended_witness :
    ("regex" ∉ (["equals", "contains", "starts_with", "ends_with",
        "greater_than", "less_than", "exists", "not_exists"] : List String))
    ∧ evaluateFilter sampleHit ⟨"agent.name", "regex", ""⟩ = true :=
  ⟨by decide, c2_amended sampleHit ⟨"agent.name", "regex", ""⟩ (by decide)⟩

/-- C6 counterexample: for the field path rule.level the exists operator
takes the numeric branch and its default switch arm, so a record without
the field matches the exists filter even though the coerced string form of
the field value is empty. -/
theorem c6_counterexample :
    evaluateFilter ⟨1, 0, JSVal.obj []⟩ ⟨"rule.level", "exists", ""⟩ = true
    ∧ fieldStringForm (getNestedValue (JSVal.obj []) "rule.level") = "" := by
  decide

/-- C6 amended: for every field path other than the two hard-coded numeric
fields rule.level and data.win.system.eventID, an exists filter matches
exactly when the coerced lower-cased string form of the field value is
non-empty and differs from the literal strings undefined and null (so a
present-but-empty field and an absent field are excluded, and a present
non-empty field is included); on the two numeric field paths exists
matches every record. -/
theorem c6_amended (hit : Hit) (f : Filter) (hop : f.operator = "exists")
    (h1 : f.field ≠ "rule.level") (h2 : f.field ≠ "data.win.system.eventID") :
    evaluateFilter hit f = true ↔
      (fieldStringForm (getNestedValue (jsOrDefault hit.data (JSVal.obj [])) f.field) ≠ ""
        ∧ fieldStringForm (getNestedValue (jsOrDefault hit.data (JSVal.obj [])) f.field)
            ≠ "undefined"
        ∧ fieldStringForm (getNestedValue (jsOrDefault hit.data (JSVal.obj [])) f.field)
            ≠ "null") := by
  unfold evaluateFilter
  rw [if_neg (by tauto)]
  simp [hop, and_assoc]

/-- C6 witness: the amended exists semantics on three records: field
present with non-empty value (included), present with empty string
(excluded), absent (excluded). -/
theorem c6_amended_witness :
    (("agent.name" : String) ≠ "rule.level")
    ∧ evaluateFilter ⟨1, 0, JSVal.obj [("agent", JSVal.obj [("name", JSVal.str "srv01")])]⟩
        ⟨"agent.name", "exists", ""⟩ = true
    ∧ evaluateFilter ⟨2, 0, JSVal.obj [("agent", JSVal.obj [("name", JSVal.str "")])]⟩
        ⟨"agent.name", "exists", ""⟩ = false
    ∧ evaluateFilter ⟨3, 0, JSVal.obj []⟩ ⟨"agent.name", "exists", ""⟩ = false := by
  refine ⟨by decide, ?_, by decide, by decide⟩
  exact (c6_amended ⟨1, 0, JSVal.obj [("agent", JSVal.obj [("name", JSVal.str "srv01")])]⟩
    ⟨"agent.name", "exists", ""⟩ rfl (by decide) (by decide)).mpr (by decide)

/-- C10 counterexample: on the hard-coded numeric field path rule.level,
exists and not_exists both take the numeric branch default and both match
the same record, so the two operators are not complements there. -/
theorem c10_counterexample :
    evaluateFilter ⟨1, 0, JSVal.obj []⟩ ⟨"rule.level", "exists", "x"⟩ = true
    ∧ evaluateFilter ⟨1, 0, JSVal.obj []⟩ ⟨"rule.level", "not_exists", "x"⟩ = true := by
  decide

/-- C10 amended: for every field path other than the two hard-coded
numeric fields, not_exists is the exact complement of exists; on those two
numeric field paths both operators match every record; and for every field
path the outcome of exists and of not_exists is independent of the
comparison value. -/
theorem c10_amended (hit : Hit) (fld v v1 v2 : String) :
    (fld ≠ "rule.level" → fld ≠ "data.win.system.eventID" →
      evaluateFilter hit ⟨fld, "not_exists", v⟩
        = !(evaluateFilter hit ⟨fld, "exists", v⟩))
    ∧ (fld = "rule.level" ∨ fld = "data.win.system.eventID" →
      evaluateFilter hit ⟨fld, "exists", v⟩ = true
        ∧ evaluateFilter hit ⟨fld, "not_exists", v⟩ = true)
    ∧ evaluateFilter hit ⟨fld, "exists", v1⟩ = evaluateFilter hit ⟨fld, "exists", v2⟩
    ∧ evaluateFilter hit ⟨fld, "not_exists", v1⟩
        = evaluateFilter hit ⟨fld, "not_exists", v2⟩ := by
  refine ⟨?_, ?_, ?_, ?_⟩
  · intro h1 h2
    have hne : ¬(fld = "rule.level" ∨ fld = "data.win.system.eventID") := by tauto
    simp [evaluateFilter, hne, Bool.not_and, Bool.not_not, or_assoc]
  · intro hf
    unfold evaluateFilter
    rw [if_pos hf, if_pos hf]
    simp
  · unfold evaluateFilter
    split <;> simp
  · unfold evaluateFilter
    split <;> simp

/-- C10 witness: the amended complement law evaluated at the field path
agent.name on a concrete record. -/
theorem c10_amended_witness :
    evaluateFilter sampleHit ⟨"agent.name", "not_exists", "a"⟩
      = !(evaluateFilter sampleHit ⟨"agent.name", "exists", "a"⟩) :=
  (c10_amended sampleHit "agent.name" "a" "b" "c").1 (by decide) (by decide)

/-- C4 counterexample: in the SOC dashboard, a sort-only change does reset
the page: sorting by the current key from page 2 lands on page 1, because
sortTable re-runs applyFilters, which sets currentPage to 1. -/
theorem c4_counterexample :
    (appSortTable "severity" ⟨[], ⟨"", "", ""⟩, "severity", "desc", [], 2⟩).currentPage = 1
    ∧ (⟨[], ⟨"", "", ""⟩, "severity", "desc", [], 2⟩ : AppState).currentPage = 2 := by
  decide

/-- C4 amended: in both engines a sort call on the current sort key
toggles the direction and a call on a different key adopts it with
descending direction; the current page is left unchanged by the search
analytics engine, but the SOC dashboard engine re-runs applyFilters and
always resets the current page to 1. -/
theorem c4_amended (s : SAState) (t : AppState) (field key : String) :
    (saSortTable field s).sortField = field
    ∧ (saSortTable field s).sortDirection =
        (if s.sortField = field then (if s.sortDirection = "asc" then "desc" else "asc")
          else "desc")
    ∧ (saSortTable field s).currentPage = s.currentPage
    ∧ (appSortTable key t).sortKey = key
    ∧ (appSortTable key t).sortDirection =
        (if t.sortKey = key then (if t.sortDirection = "asc" then "desc" else "asc")
          else "desc")
    ∧ (appSortTable key t).currentPage = 1 := by
  refine ⟨rfl, rfl, rfl, ?_, ?_, ?_⟩
  · unfold appSortTable applyFilters
    split
    · next h => simpa using h
    · rfl
  · unfold appSortTable applyFilters
    split
    · next h => simp [h]
    · next h => simp [h]
  · unfold appSortTable applyFilters
    split <;> rfl

/-- C9: in every reachable state of the polling loop the number of
in-flight fetches is 1 exactly when the guard flag is set (hence never
exceeds 1); a timer tick that fires while the flag is set leaves the state
unchanged (no new fetch starts); and completing a fetch, successfully or
not, clears the flag. -/
theorem c9_single_flight (s : PollState) (h : PollReachable s) :
    s.inFlight = (if s.isUpdating then 1 else 0)
    ∧ s.inFlight ≤ 1
    ∧ (s.isUpdating = true → tickUpdate s = s)
    ∧ (completeUpdate s).isUpdating = false := by
  have preserve : ∀ t u : PollState, PollStep t u →
      t.inFlight = (if t.isUpdating then 1 else 0) →
      u.inFlight = (if u.isUpdating then 1 else 0) := by
    intro t u st ih
    cases st with
    | tick =>
      unfold tickUpdate
      by_cases ht : t.isUpdating
      · simpa [ht] using ih
      · simp [ht] at ih ⊢
        omega
    | complete ok hpos =>
      unfold completeUpdate
      by_cases ht : t.isUpdating <;> simp [ht] at ih ⊢ <;> omega
  have key : s.inFlight = (if s.isUpdating then 1 else 0) := by
    induction h with
    | refl => rfl
    | tail hsteps step ih => exact preserve _ _ step ih
  refine ⟨key, ?_, ?_, rfl⟩
  · by_cases hu : s.isUpdating <;> simp [hu] at key <;> omega
  · intro hu
    unfold tickUpdate
    rw [if_pos hu]

/-- C9 witness: the single-flight invariant evaluated at the state reached
by one timer tick from the initial state. -/
theorem c9_single_flight_witness :
    PollReachable ⟨true, 1⟩
    ∧ (⟨true, 1⟩ : PollState).inFlight = (if (⟨true, 1⟩ : PollState).isUpdating then 1 else 0)
    ∧ (⟨true, 1⟩ : PollState).inFlight ≤ 1
    ∧ ((⟨true, 1⟩ : PollState).isUpdating = true → tickUpdate ⟨true, 1⟩ = ⟨true, 1⟩)
    ∧ (completeUpdate ⟨true, 1⟩).isUpdating = false := by
  have hr : PollReachable ⟨true, 1⟩ :=
    Relation.ReflTransGen.single (PollStep.tick ⟨false, 0⟩)
  exact ⟨hr, c9_single_flight ⟨true, 1⟩ hr⟩

/-- Sorted permutations agree when the order relation is antisymmetric on
the elements actually present; stated with the antisymmetry hypothesis
restricted to members so it applies to lists with pairwise-distinct sort
keys. -/
theorem sorted_eq_of_perm {α : Type} (r : α → α → Prop) :
    ∀ (l₁ l₂ : List α), (∀ a ∈ l₁, ∀ b ∈ l₁, r a b → r b a → a = b) →
      l₁.Perm l₂ → l₁.Sorted r → l₂.Sorted r → l₁ = l₂ := by
  intro l₁
  induction l₁ with
  | nil =>
    intro l₂ _ p _ _
    exact (p.symm.eq_nil).symm
  | cons a t ih =>
    intro l₂ anti p s₁ s₂
    rcases l₂ with _ | ⟨b, t2⟩
    · exact absurd p.eq_nil (by simp)
    · have hab : a = b := by
        by_contra hne
        have hbmem : b ∈ a :: t := p.mem_iff.mpr (List.mem_cons_self b t2)
        have hbt : b ∈ t := by
          rcases List.mem_cons.mp hbmem with h | h
          · exact absurd h.symm hne
          · exact h
        have hamem : a ∈ b :: t2 := p.mem_iff.mp (List.mem_cons_self a t)
        have hat2 : a ∈ t2 := by
          rcases List.mem_cons.mp hamem with h | h
          · exact absurd h hne
          · exact h
        have h1 : r a b := (List.sorted_cons.mp s₁).1 b hbt
        have h2 : r b a := (List.sorted_cons.mp s₂).1 a hat2
        exact hne (anti a (List.mem_cons_self a t) b hbmem h1 h2)
      subst hab
      have pt : t.Perm t2 := p.cons_inv
      have anti2 : ∀ x ∈ t, ∀ y ∈ t, r x y → r y x → x = y := fun x hx y hy =>
        anti x (List.mem_cons_of_mem a hx) y (List.mem_cons_of_mem a hy)
      rw [ih t2 anti2 pt (List.sorted_cons.mp s₁).2 (List.sorted_cons.mp s₂).2]

/-- Strict JS less-than on values is asymmetric. -/
theorem jsLtB_asymm (x y : JSVal) (h : jsLtB x y = true) : jsLtB y x = false := by
  cases x <;> cases y <;> simp [jsLtB] at h ⊢ <;> first | omega | exact le_of_lt h

/-- Strict JS less-than on values is transitive (a true comparison forces
both operands into the same primitive kind). -/
theorem jsLtB_trans (x y z : JSVal) (h1 : jsLtB x y = true) (h2 : jsLtB y z = true) :
    jsLtB x z = true := by
  cases x <;> cases y <;> cases z <;> simp [jsLtB] at h1 h2 ⊢ <;>
    first | omega | exact lt_trans h1 h2

/-- JS greater-than is less-than with the operands swapped. -/
theorem jsGtB_eq_swap (x y : JSVal) : jsGtB x y = jsLtB y x := by
  cases x <;> cases y <;> rfl

/-- Ordered insertion only consults the relation through its decision, so
pointwise equivalent relations insert identically. -/
theorem orderedInsert_congr {α : Type} (r₁ r₂ : α → α → Prop) [DecidableRel r₁]
    [DecidableRel r₂] (h : ∀ a b, r₁ a b ↔ r₂ a b) (a : α) (l : List α) :
    List.orderedInsert r₁ a l = List.orderedInsert r₂ a l := by
  induction l with
  | nil => rfl
  | cons b l ih =>
    simp only [List.orderedInsert]
    by_cases hr : r₁ a b
    · rw [if_pos hr, if_pos ((h a b).mp hr)]
    · rw [if_neg hr, if_neg (fun hc => hr ((h a b).mpr hc)), ih]

/-- Insertion sort only consults the relation through its decision, so
pointwise equivalent relations sort identically. -/
theorem insertionSort_congr {α : Type} (r₁ r₂ : α → α → Prop) [DecidableRel r₁]
    [DecidableRel r₂] (h : ∀ a b, r₁ a b ↔ r₂ a b) (l : List α) :
    List.insertionSort r₁ l = List.insertionSort r₂ l := by
  induction l with
  | nil => rfl
  | cons a l ih =>
    simp only [List.insertionSort]
    rw [ih, orderedInsert_congr r₁ r₂ h]

/-- Ordered insertion preserves sortedness when the relation is total and
transitive on the elements involved (membership-restricted version, needed
because the JS comparison is not total on the whole value type). -/
theorem sorted_orderedInsert_mem {α : Type} (R : α → α → Prop) [DecidableRel R] (a : α) :
    ∀ l : List α,
      (∀ x ∈ a :: l, ∀ y ∈ a :: l, R x y ∨ R y x) →
      (∀ x ∈ a :: l, ∀ y ∈ a :: l, ∀ z ∈ a :: l, R x y → R y z → R x z) →
      l.Sorted R → (List.orderedInsert R a l).Sorted R := by
  intro l
  induction l with
  | nil =>
    intro _ _ _
    simp
  | cons b l ih =>
    intro htot htrans hs
    have sub : ∀ x ∈ a :: l, x ∈ a :: b :: l := by
      intro x hx
      rcases List.mem_cons.mp hx with rfl | h
      · exact List.mem_cons_self _ _
      · exact List.mem_cons_of_mem _ (List.mem_cons_of_mem _ h)
    rcases List.sorted_cons.mp hs with ⟨hbl, hsl⟩
    simp only [List.orderedInsert]
    by_cases hr : R a b
    · rw [if_pos hr]
      refine List.sorted_cons.mpr ⟨?_, hs⟩
      intro y hy
      rcases List.mem_cons.mp hy with rfl | hyl
      · exact hr
      · exact htrans a (List.mem_cons_self _ _)
          b (List.mem_cons_of_mem a (List.mem_cons_self b l))
          y (List.mem_cons_of_mem a (List.mem_cons_of_mem b hyl)) hr (hbl y hyl)
    · rw [if_neg hr]
      refine List.sorted_cons.mpr ⟨?_, ?_⟩
      · intro y hy
        rcases (List.mem_orderedInsert R).mp hy with h | hyl
        · rw [h]
          rcases htot a (List.mem_cons_self _ _)
            b (List.mem_cons_of_mem a (List.mem_cons_self b l)) with h2 | h2
          · exact absurd h2 hr
          · exact h2
        · exact hbl y hyl
      · exact ih (fun x hx y hy => htot x (sub x hx) y (sub y hy))
          (fun x hx y hy z hz hxy hyz =>
            htrans x (sub x hx) y (sub y hy) z (sub z hz) hxy hyz) hsl

/-- Insertion sort produces a sorted list when the relation is total and
transitive on the list members. -/
theorem sorted_insertionSort_mem {α : Type} (R : α → α → Prop) [DecidableRel R] :
    ∀ l : List α,
      (∀ x ∈ l, ∀ y ∈ l, R x y ∨ R y x) →
      (∀ x ∈ l, ∀ y ∈ l, ∀ z ∈ l, R x y → R y z → R x z) →
      (List.insertionSort R l).Sorted R := by
  intro l
  induction l with
  | nil =>
    intro _ _
    simp
  | cons a l ih =>
    intro htot htrans
    simp only [List.insertionSort]
    have sub : ∀ x ∈ a :: List.insertionSort R l, x ∈ a :: l := by
      intro x hx
      rcases List.mem_cons.mp hx with rfl | h
      · exact List.mem_cons_self _ _
      · exact List.mem_cons_of_mem a ((List.perm_insertionSort R l).subset h)
    exact sorted_orderedInsert_mem R a (List.insertionSort R l)
      (fun x hx y hy => htot x (sub x hx) y (sub y hy))
      (fun x hx y hy z hz hxy hyz =>
        htrans x (sub x hx) y (sub y hy) z (sub z hz) hxy hyz)
      (ih (fun x hx y hy => htot x (List.mem_cons_of_mem a hx) y (List.mem_cons_of_mem a hy))
        (fun x hx y hy z hz hxy hyz =>
          htrans x (List.mem_cons_of_mem a hx) y (List.mem_cons_of_mem a hy)
            z (List.mem_cons_of_mem a hz) hxy hyz))

/-- Re-sorting a sorted list by the flipped relation yields its exact
reverse, provided the relation is total, transitive and antisymmetric on
the list members. -/
theorem insertionSort_flip_reverse {α : Type} (R : α → α → Prop) [DecidableRel R]
    (l : List α)
    (htot : ∀ x ∈ l, ∀ y ∈ l, R x y ∨ R y x)
    (htrans : ∀ x ∈ l, ∀ y ∈ l, ∀ z ∈ l, R x y → R y z → R x z)
    (hanti : ∀ x ∈ l, ∀ y ∈ l, R x y → R y x → x = y) :
    List.insertionSort (fun a b => R b a) (List.insertionSort R l)
      = (List.insertionSort R l).reverse := by
  have mem1 : ∀ x ∈ List.insertionSort R l, x ∈ l := fun x hx =>
    (List.perm_insertionSort R l).subset hx
  have sorted1 : (List.insertionSort R l).Sorted R :=
    sorted_insertionSort_mem R l htot htrans
  have perm2 := List.perm_insertionSort (fun a b => R b a) (List.insertionSort R l)
  have mem2 : ∀ x ∈ List.insertionSort (fun a b => R b a) (List.insertionSort R l),
      x ∈ l := fun x hx => mem1 x (perm2.subset hx)
  have sorted2 : (List.insertionSort (fun a b => R b a)
      (List.insertionSort R l)).Sorted (fun a b => R b a) :=
    sorted_insertionSort_mem (fun a b => R b a) (List.insertionSort R l)
      (fun x hx y hy => htot y (mem1 y hy) x (mem1 x hx))
      (fun x hx y hy z hz hxy hyz =>
        htrans z (mem1 z hz) y (mem1 y hy) x (mem1 x hx) hyz hxy)
  have sortedRev : ((List.insertionSort R l).reverse).Sorted (fun a b => R b a) := by
    rw [List.Sorted, List.pairwise_reverse]
    exact sorted1
  exact sorted_eq_of_perm (fun a b => R b a) _ _
    (fun x hx y hy hxy hyx => hanti x (mem2 x hx) y (mem2 y hy) hyx hxy)
    (perm2.trans (List.reverse_perm _).symm) sorted2 sortedRev

/-- Sorting by the precedence of a tie-free strict comparison and then by
the opposite precedence reverses the output exactly, provided the list
members are pairwise strictly comparable. -/
theorem sortPair_reversal {α : Type} (ltb : α → α → Bool)
    (hasymm : ∀ x y, ltb x y = true → ltb y x = false)
    (htr : ∀ x y z, ltb x y = true → ltb y z = true → ltb x z = true)
    (l : List α)
    (hord : l.Pairwise (fun a b => ltb a b = true ∨ ltb b a = true)) :
    List.insertionSort (fun a b => ltb a b = false)
        (List.insertionSort (fun a b => ltb b a = false) l)
      = (List.insertionSort (fun a b => ltb b a = false) l).reverse := by
  have hsymm : Symmetric (fun a b : α => ltb a b = true ∨ ltb b a = true) := by
    intro x y h
    exact h.symm
  have comp : ∀ a ∈ l, ∀ b ∈ l, a ≠ b → (ltb a b = true ∨ ltb b a = true) :=
    fun a ha b hb hne => List.Pairwise.forall hsymm hord ha hb hne
  have htot : ∀ x ∈ l, ∀ y ∈ l, ltb y x = false ∨ ltb x y = false := by
    intro x _ y _
    rcases Bool.eq_false_or_eq_true (ltb y x) with h | h
    · exact Or.inr (hasymm y x h)
    · exact Or.inl h
  have htrans : ∀ x ∈ l, ∀ y ∈ l, ∀ z ∈ l,
      ltb y x = false → ltb z y = false → ltb z x = false := by
    intro x hx y hy z hz hxy hyz
    by_cases exy : x = y
    · subst exy
      exact hyz
    rcases Bool.eq_false_or_eq_true (ltb z x) with h | h
    · exfalso
      have hxy2 : ltb x y = true := by
        rcases comp x hx y hy exy with h2 | h2
        · exact h2
        · exact absurd h2 (by simp [hxy])
      exact absurd (htr z x y h hxy2) (by simp [hyz])
    · exact h
  have hanti : ∀ x ∈ l, ∀ y ∈ l, ltb y x = false → ltb x y = false → x = y := by
    intro x hx y hy hxy hyx
    by_contra hne
    rcases comp x hx y hy hne with h | h
    · exact absurd h (by simp [hyx])
    · exact absurd h (by simp [hxy])
  exact insertionSort_flip_reverse (fun a b => ltb b a = false) l htot htrans hanti

/-- Asc-then-desc and desc-then-asc reversal for any pair of precedence
functions that negate the JS greater-than and less-than of a key accessor,
on lists whose key values are pairwise strictly comparable. -/
theorem precede_sort_reversal {α : Type} (v : α → JSVal) (p q : α → α → Bool)
    (hp : ∀ a b, p a b = !(jsGtB (v a) (v b)))
    (hq : ∀ a b, q a b = !(jsLtB (v a) (v b)))
    (l : List α)
    (hord : l.Pairwise (fun a b =>
      jsLtB (v a) (v b) = true ∨ jsLtB (v b) (v a) = true)) :
    (List.insertionSort (fun a b => q a b = true)
        (List.insertionSort (fun a b => p a b = true) l)
      = (List.insertionSort (fun a b => p a b = true) l).reverse)
    ∧ (List.insertionSort (fun a b => p a b = true)
        (List.insertionSort (fun a b => q a b = true) l)
      = (List.insertionSort (fun a b => q a b = true) l).reverse) := by
  have hiffp : ∀ a b : α, (p a b = true) ↔ (jsLtB (v b) (v a) = false) := by
    intro a b
    rw [hp, Bool.not_eq_true', jsGtB_eq_swap]
  have hiffq : ∀ a b : α, (q a b = true) ↔ (jsLtB (v a) (v b) = false) := by
    intro a b
    rw [hq, Bool.not_eq_true']
  have cp : ∀ m : List α,
      List.insertionSort (fun a b => p a b = true) m
        = List.insertionSort (fun a b => jsLtB (v b) (v a) = false) m :=
    fun m => insertionSort_congr _ _ hiffp m
  have cq : ∀ m : List α,
      List.insertionSort (fun a b => q a b = true) m
        = List.insertionSort (fun a b => jsLtB (v a) (v b) = false) m :=
    fun m => insertionSort_congr _ _ hiffq m
  constructor
  · rw [cq, cp]
    exact sortPair_reversal (fun a b => jsLtB (v a) (v b))
      (fun x y h => jsLtB_asymm _ _ h)
      (fun x y z h1 h2 => jsLtB_trans _ _ _ h1 h2) l hord
  · rw [cp, cq]
    exact sortPair_reversal (fun a b => jsLtB (v b) (v a))
      (fun x y h => jsLtB_asymm _ _ h)
      (fun x y z h1 h2 => jsLtB_trans _ _ _ h2 h1) l
      (hord.imp (fun h => h.symm))

/-- C8 counterexample: two alerts tied on severity keep their relative
order under both sort directions (the sort is stable and the comparator
reports a tie), so sorting ascending and then descending is not the exact
reverse of the ascending output. -/
theorem c8_counterexample :
    sortAlerts (sortAlerts [⟨"", "a", "", 5, 0⟩, ⟨"", "b", "", 5, 0⟩] "severity" "asc")
        "severity" "desc"
      ≠ (sortAlerts [⟨"", "a", "", 5, 0⟩, ⟨"", "b", "", 5, 0⟩] "severity" "asc").reverse := by
  decide

/-- C8 amended: for every sort key, in both engines (app.js sortAlerts and
the part_002 sortTable comparator), and for either order of directions,
sorting and then re-sorting in the opposite direction produces exactly the
reverse of the first output, provided the records under that key have
pairwise strictly comparable values (any two are ordered by the JS
less-than; in particular pairwise distinct numbers or strings). When key
values tie the exact reversal fails, as the counterexample shows, and
since neither comparator orders tied records consistently (the part_002
one never reports a tie) no tie order is asserted. -/
theorem c8_amended :
    (∀ (key : String) (l : List Alert),
      l.Pairwise (fun a b =>
        jsLtB (appSortVal key a) (appSortVal key b) = true
          ∨ jsLtB (appSortVal key b) (appSortVal key a) = true) →
      sortAlerts (sortAlerts l key "asc") key "desc" = (sortAlerts l key "asc").reverse
      ∧ sortAlerts (sortAlerts l key "desc") key "asc" = (sortAlerts l key "desc").reverse)
    ∧ (∀ (field : String) (l : List Hit),
      l.Pairwise (fun a b =>
        jsLtB (saSortVal field a) (saSortVal field b) = true
          ∨ jsLtB (saSortVal field b) (saSortVal field a) = true) →
      saSortData field "desc" (saSortData field "asc" l) = (saSortData field "asc" l).reverse
      ∧ saSortData field "asc" (saSortData field "desc" l)
          = (saSortData field "desc" l).reverse) := by
  constructor
  · intro key l hord
    have hp : ∀ a b : Alert,
        appPrecede key "asc" a b = !(jsGtB (appSortVal key a) (appSortVal key b)) := by
      intro a b
      simp [appPrecede]
    have hq : ∀ a b : Alert,
        appPrecede key "desc" a b = !(jsLtB (appSortVal key a) (appSortVal key b)) := by
      intro a b
      simp [appPrecede]
    exact precede_sort_reversal (appSortVal key)
      (appPrecede key "asc") (appPrecede key "desc") hp hq l hord
  · intro field l hord
    have hp : ∀ a b : Hit,
        saPrecede field "asc" a b = !(jsGtB (saSortVal field a) (saSortVal field b)) := by
      intro a b
      simp [saPrecede]
    have hq : ∀ a b : Hit,
        saPrecede field "desc" a b = !(jsLtB (saSortVal field a) (saSortVal field b)) := by
      intro a b
      simp [saPrecede]
    exact precede_sort_reversal (saSortVal field)
      (saPrecede field "asc") (saPrecede field "desc") hp hq l hord

/-- C8 witness: the reversal law evaluated in both engines on two records
with distinct severities 3 and 7. -/
theorem c8_amended_witness :
    (([⟨"", "a", "", 3, 0⟩, ⟨"", "b", "", 7, 0⟩] : List Alert).Pairwise (fun a b =>
      jsLtB (appSortVal "severity" a) (appSortVal "severity" b) = true
        ∨ jsLtB (appSortVal "severity" b) (appSortVal "severity" a) = true))
    ∧ sortAlerts (sortAlerts [⟨"", "a", "", 3, 0⟩, ⟨"", "b", "", 7, 0⟩] "severity" "asc")
        "severity" "desc"
      = (sortAlerts [⟨"", "a", "", 3, 0⟩, ⟨"", "b", "", 7, 0⟩] "severity" "asc").reverse
    ∧ saSortData "severity" "asc"
        (saSortData "severity" "desc"
          [⟨1, 0, JSVal.obj [("rule", JSVal.obj [("level", JSVal.int 3)])]⟩,
            ⟨2, 0, JSVal.obj [("rule", JSVal.obj [("level", JSVal.int 7)])]⟩])
      = (saSortData "severity" "desc"
          [⟨1, 0, JSVal.obj [("rule", JSVal.obj [("level", JSVal.int 3)])]⟩,
            ⟨2, 0, JSVal.obj [("rule", JSVal.obj [("level", JSVal.int 7)])]⟩]).reverse := by
  refine ⟨by decide, ?_, ?_⟩
  · exact (c8_amended.1 "severity" [⟨"", "a", "", 3, 0⟩, ⟨"", "b", "", 7, 0⟩] (by decide)).1
  · exact (c8_amended.2 "severity"
      [⟨1, 0, JSVal.obj [("rule", JSVal.obj [("level", JSVal.int 3)])]⟩,
        ⟨2, 0, JSVal.obj [("rule", JSVal.obj [("level", JSVal.int 7)])]⟩] (by decide)).2

end SkullEngine
